import Mathlib

/-!
Shallow embedding of `streamlit_video_manager`'s synchronization engine
(`src/indexer.py` and `src/models.py`).

Paths are relative POSIX paths (separator `'/'`).  The filesystem under the
media root is modelled as a finite rose tree `FSTree`; `os.walk` with the
in-place pruning of `SKIP_FOLDERS` becomes a structural traversal that does
not descend into skip-named subdirectories.  The database session
(`get_session`) becomes an explicit commit-or-rollback wrapper over a pure
catalog state `List Video`; the `unique=True` constraint on `Video.path`
declared in `models.py` is enforced at commit time, as SQLite does.
-/

namespace VideoManager

/-- `VIDEO_EXTENSIONS` from indexer.py: allowed video file extensions. -/
def VIDEO_EXTENSIONS : List String :=
  [".mp4", ".mkv", ".avi", ".mov", ".wmv", ".flv", ".webm", ".mpeg", ".mpg"]

/-- `SKIP_FOLDERS` from indexer.py: folder names that are never descended into. -/
def SKIP_FOLDERS : List String :=
  ["@eaDir", "$RECYCLE.BIN", "System Volume Information", ".DS_Store",
   ".thumbnails", ".recycle"]

/-! ### os.path helpers

`os.path.splitext`, `os.path.basename` and `os.path.dirname` for POSIX
relative paths, following CPython's `posixpath` implementation. -/

/-- Split a character list at its last occurrence of `c`:
`some (pre, post)` with the list equal to `pre ++ c :: post` and `c ∉ post`. -/
def lastSplit (c : Char) : List Char → Option (List Char × List Char)
  | [] => none
  | a :: rest =>
    match lastSplit c rest with
    | some (pre, post) => some (a :: pre, post)
    | none => if a = c then some ([], rest) else none

/-- `os.path.basename`: everything after the final `'/'`. -/
def basename (p : String) : String :=
  match lastSplit '/' p.data with
  | some (_, post) => ⟨post⟩
  | none => p

/-- `os.path.dirname`: everything before the final `'/'`, with trailing
slashes stripped from the head unless the head is all slashes. -/
def dirname (p : String) : String :=
  match lastSplit '/' p.data with
  | none => ""
  | some (pre, _) =>
    let head := pre ++ ['/']
    if head.all (· = '/') then ⟨head⟩
    else ⟨(head.reverse.dropWhile (· = '/')).reverse⟩

/-- `os.path.splitext` on a bare filename (no separator): split off the
extension at the last dot, provided some character before that dot is not a
dot (so leading dots of a filename never start an extension). -/
def splitext (name : String) : String × String :=
  match lastSplit '.' name.data with
  | some (pre, post) =>
    if pre.any (· ≠ '.') then (⟨pre⟩, ⟨'.' :: post⟩) else (name, "")
  | none => (name, "")

example : splitext "video1.mp4" = ("video1", ".mp4") := by decide
example : splitext ".DS_Store" = (".DS_Store", "") := by decide
example : splitext "a.b.mkv" = ("a.b", ".mkv") := by decide
example : basename "Tutorials/Go/video1.mp4" = "video1.mp4" := by decide
example : dirname "Tutorials/Go/video1.mp4" = "Tutorials/Go" := by decide
example : dirname "video1.mp4" = "" := by decide

/-! ### The filesystem model and `scan_disk_paths` -/

/-- A finite directory tree: named subdirectories and plain file names.
This models the tree that `os.walk` traverses below the media root. -/
inductive FSTree where
  | node (dirs : List (String × FSTree)) (files : List String)

/-- Subdirectories of the root of a tree. -/
def FSTree.dirs : FSTree → List (String × FSTree)
  | .node ds _ => ds

/-- Files directly at the root of a tree. -/
def FSTree.files : FSTree → List String
  | .node _ fs => fs

/-- `os.path.join` of a (possibly empty) relative directory and a name,
as it arises from `os.walk`/`os.path.relpath` below the media root. -/
def joinRel (pre s : String) : String :=
  if pre = "" then s else pre ++ "/" ++ s

/-- `str.lower()` (ASCII case folding, all that the extension allow-list
needs), character by character. -/
def lowerStr (s : String) : String := ⟨s.data.map Char.toLower⟩

/-- The junk-file check of indexer.py (`Filter 3`):
`file.startswith("._") or file == ".DS_Store"`. -/
def is_junk_file (f : String) : Bool :=
  "._".data.isPrefixOf f.data || decide (f = ".DS_Store")

/-- A file survives the per-file filters of `scan_disk_paths`: it is not a
junk file, and its extension, lower-cased, is in `VIDEO_EXTENSIONS`. -/
def file_eligible (f : String) : Bool :=
  !is_junk_file f && decide (lowerStr (splitext f).2 ∈ VIDEO_EXTENSIONS)

mutual

/-- The `os.walk` loop body of `scan_disk_paths`, carrying the relative path
`pre` of the current directory.  The in-place pruning
`dirs[:] = [d for d in dirs if d not in SKIP_FOLDERS]` is modelled by
`walkDirs` never descending into a skip-named subdirectory; eligible files of
the current directory are emitted (as paths relative to the media root)
before the subdirectories are walked, as `os.walk(topdown=True)` does. -/
def walkScan (pre : String) : FSTree → List String
  | .node dirs files =>
    (files.filter file_eligible).map (joinRel pre) ++ walkDirs pre dirs

/-- Walk the subdirectory list of one directory, skipping `SKIP_FOLDERS`. -/
def walkDirs (pre : String) : List (String × FSTree) → List String
  | [] => []
  | (n, sub) :: rest =>
    (if n ∈ SKIP_FOLDERS then [] else walkScan (joinRel pre n) sub)
      ++ walkDirs pre rest

end

/-- `scan_disk_paths` from indexer.py.  The media root is `some t` when
`MEDIA_DIR` is a directory with contents `t`; it is `none` when `MEDIA_DIR`
does not exist or is not a directory, in which case `os.walk` yields no
triples at all and the function returns the empty set without raising.
The Python `set` of relative paths is modelled as a deduplicated list. -/
def scan_disk_paths (media : Option FSTree) : List String :=
  match media with
  | none => []
  | some t => (walkScan "" t).dedup

/-! ### The catalog model: `models.Video` and the session -/

/-- The `Video` row of models.py, carrying its four data columns.  The
surrogate primary key `id` is assigned by the database and plays no role in
any claim, so it is not modelled. -/
structure Video where
  title : String
  path : String
  container_folder : String
  tags : String
deriving Repr, DecidableEq

/-- The persisted catalog: the rows of the `videos` table. -/
abbrev Catalog := List Video

/-- Database-layer failures: `integrityError` models SQLAlchemy's
`IntegrityError` raised at commit when the `unique=True` constraint on
`Video.path` (models.py) is violated; `writeError` models any other storage
exception raised while a phase of the sync executes. -/
inductive DBError where
  | integrityError
  | writeError
deriving Repr, DecidableEq

/-- `get_session` from indexer.py: run `body` against the catalog inside one
transactional scope.  On an exception the session rolls back (the catalog
keeps its prior state) and the exception propagates; on normal completion
the session commits, at which point SQLite checks the `unique=True`
constraint on `path` declared in models.py — a violating commit raises
`IntegrityError` and nothing of the staged state is persisted. -/
def get_session {α : Type} (body : Catalog → Except DBError (Catalog × α))
    (db : Catalog) : Catalog × Except DBError α :=
  match body db with
  | .error e => (db, .error e)
  | .ok (staged, a) =>
    if (staged.map Video.path).Nodup then (staged, .ok a)
    else (db, .error .integrityError)

/-- `get_db_paths` from indexer.py: the set of `path` values of all rows. -/
def get_db_paths (db : Catalog) : List String :=
  (db.map Video.path).dedup

/-! ### `sync_database` -/

/-- `paths_to_add = disk_paths - db_paths` (set difference) from
`sync_database`. -/
def paths_to_add (disk_paths db_paths : List String) : List String :=
  disk_paths.filter (fun p => decide (p ∉ db_paths))

/-- `paths_to_remove = db_paths - disk_paths` (set difference) from
`sync_database`. -/
def paths_to_remove (disk_paths db_paths : List String) : List String :=
  db_paths.filter (fun p => decide (p ∉ disk_paths))

/-- The record construction of the add phase of `sync_database`:
`Video(title=splitext(basename(path))[0], path=path,
container_folder=dirname(path), tags="")`. -/
def new_videos (paths : List String) : List Video :=
  paths.map fun p =>
    { title := (splitext (basename p)).1
      path := p
      container_folder := dirname p
      tags := "" }

/-- A point of `sync_database` at which an injected storage exception is
raised, modelling a `CatalogWriteError` during the add or the remove phase. -/
inductive FailPhase where
  | duringAdd
  | duringRemove
deriving Repr, DecidableEq

/-- The sync summary printed by `sync_database`:
`len(paths_to_add)`, `len(paths_to_remove)`, `len(disk_paths)`. -/
structure SyncReport where
  added : Nat
  removed : Nat
  total : Nat
deriving Repr, DecidableEq

/-- The body of `sync_database` as run inside the `get_session` scope:
compute the diff, stage the add phase (guarded by `if paths_to_add:`), stage
the remove phase (guarded by `if paths_to_remove:`; the bulk delete removes
every row whose `path` is in `paths_to_remove`), and report.  `fail?`
injects a storage exception during the given phase; `none` is the unfailing
run of the source. -/
def sync_body (fail? : Option FailPhase) (disk_paths : List String)
    (db : Catalog) : Except DBError (Catalog × SyncReport) :=
  let db_paths := get_db_paths db
  let toAdd := paths_to_add disk_paths db_paths
  let toRemove := paths_to_remove disk_paths db_paths
  if fail? = some .duringAdd then .error .writeError else
  let staged₁ := if toAdd.isEmpty then db else db ++ new_videos toAdd
  if fail? = some .duringRemove then .error .writeError else
  let staged₂ :=
    if toRemove.isEmpty then staged₁
    else staged₁.filter (fun v => decide (v.path ∉ toRemove))
  .ok (staged₂, ⟨toAdd.length, toRemove.length, disk_paths.length⟩)

/-- `sync_database` from indexer.py: one `get_session` scope around the
whole run — load, diff, add phase, remove phase — committed once at the end.
Returns the catalog after the run together with the reported summary or the
propagated exception. -/
def sync_database (fail? : Option FailPhase) (media : Option FSTree)
    (db : Catalog) : Catalog × Except DBError SyncReport :=
  get_session (sync_body fail? (scan_disk_paths media)) db

/-- `session.add_all(vs)` alone inside a `get_session` scope: the store's
bulk-insert operation, committing on success. -/
def insert_many (vs : List Video) (db : Catalog) :
    Catalog × Except DBError Unit :=
  get_session (fun s => .ok (s ++ vs, ())) db

deriving instance DecidableEq for Except

/-- Outcome of the `__main__` block of indexer.py. -/
inductive MainResult where
  | exitedWithError
  | completed (r : Except DBError SyncReport)
deriving Repr, DecidableEq

/-- The `__main__` block of indexer.py: if `MEDIA_DIR` is not a directory,
print a diagnostic and `sys.exit(1)` without running the sync; otherwise run
`sync_database` (the schema-bootstrap branch only creates an empty file and
is not modelled). -/
def main_run (media : Option FSTree) (db : Catalog) : Catalog × MainResult :=
  match media with
  | none => (db, .exitedWithError)
  | some t =>
    let res := sync_database none (some t) db
    (res.1, .completed res.2)

/-! ### Tree positions and well-formedness, for the filter claims -/

/-- The tree has, under the chain of subdirectory names `ds`, a file named
`f`. -/
def hasFileAt : FSTree → List String → String → Bool
  | t, [], f => decide (f ∈ t.files)
  | t, d :: ds, f => t.dirs.any fun p => decide (p.1 = d) && hasFileAt p.2 ds f

/-- A legal filesystem name: nonempty and free of the path separator. -/
def goodName (s : String) : Bool :=
  decide (s ≠ "") && decide ('/' ∉ s.data)

mutual

/-- Every directory and file name in the tree is a legal filesystem name. -/
def wfTree : FSTree → Bool
  | .node dirs files => files.all goodName && wfDirs dirs

/-- `wfTree` on a subdirectory list. -/
def wfDirs : List (String × FSTree) → Bool
  | [] => true
  | (n, sub) :: rest => goodName n && wfTree sub && wfDirs rest

end

/-- The relative path of the file `f` under the subdirectory chain `ds`. -/
def relOf (ds : List String) (f : String) : String :=
  match ds with
  | [] => f
  | d :: rest => d ++ "/" ++ relOf rest f

/-! ### Concrete fixtures used in witnesses and counterexamples -/

/-- A pre-existing catalog row whose file has vanished from disk. -/
def vOld : Video :=
  { title := "old", path := "old.mp4", container_folder := "", tags := "" }

/-- A media root holding the single new file `new.mp4`. -/
def tNew : FSTree := .node [] ["new.mp4"]

example : scan_disk_paths (some tNew) = ["new.mp4"] := by decide

example : sync_database none (some tNew) [vOld] =
    ([{ title := "new", path := "new.mp4", container_folder := "", tags := "" }],
     .ok ⟨1, 1, 1⟩) := by decide

/-! ### Helper lemmas about the session and the sync body -/

/-- A sync body with an injected storage exception raises it. -/
theorem sync_body_fail (ph : FailPhase) (disk : List String) (db : Catalog) :
    sync_body (some ph) disk db = .error .writeError := by
  cases ph <;> simp [sync_body]

/-- Any exception raised during either apply phase propagates out of the one
`get_session` scope of `sync_database`, which rolls the whole staged state
back: the catalog keeps its pre-sync value. -/
theorem sync_fail_rollback (ph : FailPhase) (media : Option FSTree)
    (db : Catalog) :
    sync_database (some ph) media db = (db, .error .writeError) := by
  unfold sync_database get_session
  rw [sync_body_fail]

/-- Every row of a catalog is removed by a filter against the full path set. -/
theorem filter_not_mem_db_paths (db : Catalog) :
    db.filter (fun v => !decide (v.path ∈ get_db_paths db)) = [] := by
  rw [List.filter_eq_nil_iff]
  intro v hv
  simp only [Bool.not_eq_true', decide_eq_false_iff_not, Decidable.not_not]
  exact List.mem_dedup.mpr (List.mem_map_of_mem Video.path hv)

/-! ### Claim theorems -/

/-- **C9** (confirmed): the entire sync — both apply phases — runs inside the
single `get_session` scope of `sync_database`, which commits only on normal
completion; an exception raised during either the add phase or the remove
phase propagates and rolls the whole transaction back, leaving the catalog
exactly in its pre-sync state. -/
theorem sync_whole_run_atomic (ph : FailPhase) (media : Option FSTree)
    (db : Catalog) :
    sync_database (some ph) media db = (db, .error .writeError) :=
  sync_fail_rollback ph media db

/-- **C1** (counterexample): the claim predicts that a failure during the
delete step leaves an already-committed insert in place.  Concretely, with
catalog `[vOld]` and disk `{new.mp4}`, an unfailing sync would insert
`new.mp4`; but when the delete step fails, the catalog returns to exactly
`[vOld]` and `new.mp4` is not persisted — the insert was rolled back, so the
two apply steps are not independent transactions. -/
theorem sync_phases_independent_cex :
    sync_database (some .duringRemove) (some tNew) [vOld] =
      ([vOld], .error .writeError) ∧
    "new.mp4" ∉
      ((sync_database (some .duringRemove) (some tNew) [vOld]).1.map Video.path) ∧
    "new.mp4" ∈
      ((sync_database none (some tNew) [vOld]).1.map Video.path) := by
  refine ⟨by decide, by decide, by decide⟩

/-- **C1** (amended): the two apply steps are staged inside one transactional
unit that commits once at the end of `sync_database`; a failure during the
delete step rolls back the staged, not-yet-committed inserts, leaving the
catalog in its pre-sync state. -/
theorem sync_phases_one_transaction (media : Option FSTree) (db : Catalog) :
    sync_database (some .duringRemove) media db = (db, .error .writeError) :=
  sync_fail_rollback .duringRemove media db

/-- **C4** (counterexample): the claim predicts that the disk scan itself
fails with a `RootNotFound` error when the media root is not a directory and
that the failure propagates out of the sync.  In the code `scan_disk_paths`
raises nothing — `os.walk` on a missing root yields no entries and the scan
returns the empty set — and a direct `sync_database` run on a missing root
completes without error, mutating (here: emptying) the catalog. -/
theorem scan_missing_root_cex :
    scan_disk_paths none = [] ∧
    sync_database none none [vOld] = ([], .ok ⟨0, 1, 0⟩) := by
  exact ⟨rfl, by decide⟩

/-- **C4** (amended): the root-is-a-directory check lives in the entry point
of indexer.py, not in the scan: when the media root is not a directory the
`__main__` block exits with an error before `sync_database` runs, so no
catalog mutation occurs; `scan_disk_paths` itself raises no error and
returns the empty set. -/
theorem root_check_entry_point (db : Catalog) :
    main_run none db = (db, .exitedWithError) ∧ scan_disk_paths none = [] :=
  ⟨rfl, rfl⟩

/-- **C10** (confirmed): when the media root does not exist or is not a
directory, `scan_disk_paths` raises no error and returns the empty set, so a
direct `sync_database` run computes `paths_to_add = ∅` and
`paths_to_remove =` the entire catalog path set, and deletes every record. -/
theorem sync_empty_scan_deletes_all (db : Catalog) :
    scan_disk_paths none = [] ∧
    paths_to_add (scan_disk_paths none) (get_db_paths db) = [] ∧
    paths_to_remove (scan_disk_paths none) (get_db_paths db) = get_db_paths db ∧
    sync_database none none db = ([], .ok ⟨0, (get_db_paths db).length, 0⟩) := by
  have hrem : paths_to_remove [] (get_db_paths db) = get_db_paths db := by
    simp [paths_to_remove]
  refine ⟨rfl, rfl, hrem, ?_⟩
  unfold sync_database get_session sync_body
  simp only [scan_disk_paths, hrem]
  by_cases hdb : get_db_paths db = []
  · have hnil : db = [] := by
      have h := hdb
      unfold get_db_paths at h
      exact List.map_eq_nil_iff.mp ((List.dedup_eq_nil _).mp h)
    subst hnil
    decide
  · have h₂ : (get_db_paths db).isEmpty = false := by
      simpa [List.isEmpty_iff] using hdb
    simp [paths_to_add, h₂, filter_not_mem_db_paths]

/-- A catalog row that duplicates `vOld`'s path under different data fields. -/
def vDup : Video :=
  { title := "copy", path := "old.mp4", container_folder := "", tags := "x" }

/-- **C6** (confirmed): inserting a batch holding a record whose `path`
already exists in the catalog violates the `unique=True` constraint of
models.py when the enclosing transaction commits; the transaction fails with
`IntegrityError` and the catalog is left unchanged — no partial insert
survives. -/
theorem insert_duplicate_fails (db : Catalog) (vs : List Video)
    (h : ∃ v ∈ vs, v.path ∈ db.map Video.path) :
    insert_many vs db = (db, .error .integrityError) := by
  obtain ⟨v, hv, hp⟩ := h
  have hnd : ¬ ((db ++ vs).map Video.path).Nodup := by
    rw [List.map_append, List.nodup_append]
    rintro ⟨-, -, hd⟩
    exact hd hp (List.mem_map_of_mem Video.path hv)
  show (if ((db ++ vs).map Video.path).Nodup
        then ((db ++ vs : Catalog), Except.ok ())
        else (db, Except.error DBError.integrityError))
      = (db, Except.error DBError.integrityError)
  rw [if_neg hnd]

/-- Witness for C6: inserting `vDup` (path `old.mp4`, already persisted as
`vOld`) fails the transaction and leaves the one-row catalog unchanged. -/
theorem insert_duplicate_fails_witness :
    (∃ v ∈ [vDup], v.path ∈ [vOld].map Video.path) ∧
    insert_many [vDup] [vOld] = ([vOld], .error .integrityError) :=
  ⟨by decide, insert_duplicate_fails [vOld] [vDup] (by decide)⟩

/-- The staged catalog of an unfailing sync body, written without the
emptiness guards of the source (`if paths_to_add:` / `if paths_to_remove:`),
which only skip no-op work. -/
def staged_catalog (disk : List String) (db : Catalog) : Catalog :=
  (db ++ new_videos (paths_to_add disk (get_db_paths db))).filter
    (fun v => decide (v.path ∉ paths_to_remove disk (get_db_paths db)))

/-- An unfailing sync body stages `staged_catalog` and reports the sizes of
the two diffs and of the disk set. -/
theorem sync_body_none_eq (disk : List String) (db : Catalog) :
    sync_body none disk db =
      .ok (staged_catalog disk db,
           ⟨(paths_to_add disk (get_db_paths db)).length,
            (paths_to_remove disk (get_db_paths db)).length, disk.length⟩) := by
  by_cases h₁ : (paths_to_add disk (get_db_paths db)).isEmpty
  all_goals by_cases h₂ : (paths_to_remove disk (get_db_paths db)).isEmpty
  · simp only [sync_body, staged_catalog, h₁, h₂, ite_true, new_videos,
      List.isEmpty_iff.mp h₁, List.isEmpty_iff.mp h₂, List.map_nil,
      List.append_nil, List.not_mem_nil, not_false_iff, decide_True,
      List.filter_true]
    rfl
  · simp only [sync_body, staged_catalog, h₁, h₂, ite_true, ite_false,
      Bool.not_eq_true, new_videos, List.isEmpty_iff.mp h₁, List.map_nil,
      List.append_nil]
    rfl
  · simp only [sync_body, staged_catalog, h₁, h₂, ite_true, ite_false,
      Bool.not_eq_true, List.isEmpty_iff.mp h₂, List.not_mem_nil,
      not_false_iff, decide_True, List.filter_true]
    rfl
  · simp only [sync_body, staged_catalog, h₁, h₂, ite_false, Bool.not_eq_true]
    rfl

/-- The record constructed for a path `p` carries `p` as its `path`. -/
theorem new_videos_path (paths : List String) (v : Video)
    (hv : v ∈ new_videos paths) : v.path ∈ paths := by
  obtain ⟨q, hq, hqv⟩ := List.mem_map.mp hv
  rw [← hqv]
  exact hq

/-- Membership in the staged catalog's path set is exactly membership in the
scanned disk set: the core of set-completeness. -/
theorem staged_catalog_paths (disk : List String) (db : Catalog) (p : String) :
    p ∈ (staged_catalog disk db).map Video.path ↔ p ∈ disk := by
  constructor
  · intro hp
    obtain ⟨v, hv, hvp⟩ := List.mem_map.mp hp
    obtain ⟨hmem, hq⟩ := List.mem_filter.mp hv
    have hnr : v.path ∉ paths_to_remove disk (get_db_paths db) :=
      of_decide_eq_true hq
    rw [← hvp]
    rcases List.mem_append.mp hmem with hdb | hnew
    · by_contra hnd
      exact hnr (List.mem_filter.mpr
        ⟨List.mem_dedup.mpr (List.mem_map_of_mem Video.path hdb),
         decide_eq_true hnd⟩)
    · exact (List.mem_filter.mp (new_videos_path _ _ hnew)).1
  · intro hp
    by_cases hD : p ∈ get_db_paths db
    · obtain ⟨v, hv, hvp⟩ := List.mem_map.mp (List.mem_dedup.mp hD)
      refine List.mem_map.mpr
        ⟨v, List.mem_filter.mpr ⟨List.mem_append_left _ hv, ?_⟩, hvp⟩
      refine decide_eq_true (fun hc => ?_)
      have hnd : ¬ (v.path ∈ disk) := of_decide_eq_true (List.mem_filter.mp hc).2
      exact hnd (hvp ▸ hp)
    · refine List.mem_map.mpr ⟨⟨(splitext (basename p)).1, p, dirname p, ""⟩,
        List.mem_filter.mpr ⟨List.mem_append_right _ ?_, ?_⟩, rfl⟩
      · exact List.mem_map.mpr
          ⟨p, List.mem_filter.mpr ⟨hp, decide_eq_true hD⟩, rfl⟩
      · refine decide_eq_true (fun hc => ?_)
        exact hD (List.mem_filter.mp hc).1

/-- A `sync_database` run without injected failure either commits the staged
catalog (when the committed path set satisfies the unique constraint) or
rolls back with an `IntegrityError`. -/
theorem sync_database_none_eq (media : Option FSTree) (db : Catalog) :
    sync_database none media db =
      if ((staged_catalog (scan_disk_paths media) db).map Video.path).Nodup
      then (staged_catalog (scan_disk_paths media) db,
            .ok ⟨(paths_to_add (scan_disk_paths media) (get_db_paths db)).length,
                 (paths_to_remove (scan_disk_paths media) (get_db_paths db)).length,
                 (scan_disk_paths media).length⟩)
      else (db, .error .integrityError) := by
  unfold sync_database get_session
  rw [sync_body_none_eq]

/-! ### More fixtures: catalogs and trees for the witnesses -/

/-- Catalog row for `X/a.mp4`. -/
def vaX : Video :=
  { title := "a", path := "X/a.mp4", container_folder := "X", tags := "" }

/-- Catalog row for `X/b.mp4`. -/
def vbX : Video :=
  { title := "b", path := "X/b.mp4", container_folder := "X", tags := "" }

/-- A media root whose only file is `X/a.mp4`. -/
def tX : FSTree := .node [("X", .node [] ["a.mp4"])] []

/-- A row for `X/a.mp4` whose `title`/`tags` were edited by the UI layer and
no longer match a fresh derivation from the path. -/
def vCustom : Video :=
  { title := "My Custom Title", path := "X/a.mp4", container_folder := "X",
    tags := "favs" }

/-- A media root whose only file is `Tutorials/Go/video1.mp4`. -/
def tGo : FSTree :=
  .node [("Tutorials", .node [("Go", .node [] ["video1.mp4"])] [])] []

/-- **C2** (confirmed): after a successful run of `sync_database`, the set of
paths persisted in the catalog exactly equals the set of eligible relative
paths found on disk by `scan_disk_paths`. -/
theorem sync_set_complete (media : Option FSTree) (db db' : Catalog)
    (r : SyncReport) (h : sync_database none media db = (db', .ok r))
    (p : String) :
    p ∈ db'.map Video.path ↔ p ∈ scan_disk_paths media := by
  rw [sync_database_none_eq] at h
  by_cases hnd :
      ((staged_catalog (scan_disk_paths media) db).map Video.path).Nodup
  · rw [if_pos hnd] at h
    injection h with h₁ h₂
    rw [← h₁]
    exact staged_catalog_paths _ _ _
  · rw [if_neg hnd] at h
    injection h with h₁ h₂
    exact Except.noConfusion h₂

/-- Witness for C2 (spec scenario 2): catalog `{X/a.mp4, X/b.mp4}`, disk
`{X/a.mp4}`; the sync removes one record and the final path set matches the
disk set. -/
theorem sync_set_complete_witness :
    sync_database none (some tX) [vaX, vbX] = ([vaX], .ok ⟨0, 1, 1⟩) ∧
    ("X/a.mp4" ∈ ([vaX] : Catalog).map Video.path ↔
      "X/a.mp4" ∈ scan_disk_paths (some tX)) ∧
    ("X/b.mp4" ∈ ([vaX] : Catalog).map Video.path ↔
      "X/b.mp4" ∈ scan_disk_paths (some tX)) :=
  ⟨by decide,
   sync_set_complete (some tX) [vaX, vbX] [vaX] ⟨0, 1, 1⟩ (by decide) "X/a.mp4",
   sync_set_complete (some tX) [vaX, vbX] [vaX] ⟨0, 1, 1⟩ (by decide) "X/b.mp4"⟩

/-- **C3** (confirmed): sync is idempotent — for a fixed disk state, a second
run right after a successful run computes empty `paths_to_add` and
`paths_to_remove`, performs no write (the catalog is returned identical),
and reports zero additions and zero removals. -/
theorem sync_idempotent (media : Option FSTree) (db db₁ : Catalog)
    (r₁ : SyncReport) (h : sync_database none media db = (db₁, .ok r₁)) :
    paths_to_add (scan_disk_paths media) (get_db_paths db₁) = [] ∧
    paths_to_remove (scan_disk_paths media) (get_db_paths db₁) = [] ∧
    sync_database none media db₁ =
      (db₁, .ok ⟨0, 0, (scan_disk_paths media).length⟩) := by
  rw [sync_database_none_eq] at h
  by_cases hnd :
      ((staged_catalog (scan_disk_paths media) db).map Video.path).Nodup
  case neg =>
    rw [if_neg hnd] at h
    injection h with h₁ h₂
    exact Except.noConfusion h₂
  rw [if_pos hnd] at h
  injection h with h₁ h₂
  have hmem : ∀ q : String, q ∈ db₁.map Video.path ↔ q ∈ scan_disk_paths media := by
    intro q
    rw [← h₁]
    exact staged_catalog_paths _ _ _
  have hadd : paths_to_add (scan_disk_paths media) (get_db_paths db₁) = [] := by
    unfold paths_to_add
    rw [List.filter_eq_nil_iff]
    intro q hq
    simp only [decide_eq_true_eq, Decidable.not_not, Bool.not_eq_true,
      decide_eq_false_iff_not]
    exact List.mem_dedup.mpr ((hmem q).mpr hq)
  have hrem : paths_to_remove (scan_disk_paths media) (get_db_paths db₁) = [] := by
    unfold paths_to_remove
    rw [List.filter_eq_nil_iff]
    intro q hq
    simp only [Bool.not_eq_true, decide_eq_false_iff_not, Decidable.not_not]
    exact (hmem q).mp (List.mem_dedup.mp hq)
  have hstaged : staged_catalog (scan_disk_paths media) db₁ = db₁ := by
    unfold staged_catalog
    rw [hadd, hrem]
    simp [new_videos]
  have hnd₁ : (db₁.map Video.path).Nodup := by
    rw [← h₁]
    exact hnd
  refine ⟨hadd, hrem, ?_⟩
  rw [sync_database_none_eq, hstaged, if_pos hnd₁, hadd, hrem]
  rfl

/-- Witness for C3: after syncing `{X/a.mp4}` onto catalog
`{X/a.mp4, X/b.mp4}`, the second run has empty diffs and returns the catalog
unchanged, reporting zero additions and removals. -/
theorem sync_idempotent_witness :
    sync_database none (some tX) [vaX, vbX] = ([vaX], .ok ⟨0, 1, 1⟩) ∧
    paths_to_add (scan_disk_paths (some tX)) (get_db_paths [vaX]) = [] ∧
    paths_to_remove (scan_disk_paths (some tX)) (get_db_paths [vaX]) = [] ∧
    sync_database none (some tX) [vaX] = ([vaX], .ok ⟨0, 0, 1⟩) := by
  have h := sync_idempotent (some tX) [vaX, vbX] [vaX] ⟨0, 1, 1⟩ (by decide)
  exact ⟨by decide, h.1, h.2.1, h.2.2⟩

/-- **C7** (confirmed): a catalog record whose path is both on disk and in
the catalog is left completely untouched by the sync — the very record, with
all its field values (`title`, `tags`, `container_folder`), is still in the
catalog afterwards, even when those values differ from a fresh derivation
from the path. -/
theorem sync_frame_intersection (media : Option FSTree) (db : Catalog)
    (v : Video) (hv : v ∈ db) (hs : v.path ∈ scan_disk_paths media) :
    v ∈ (sync_database none media db).1 := by
  rw [sync_database_none_eq]
  by_cases hnd :
      ((staged_catalog (scan_disk_paths media) db).map Video.path).Nodup
  · rw [if_pos hnd]
    show v ∈ staged_catalog (scan_disk_paths media) db
    refine List.mem_filter.mpr
      ⟨List.mem_append_left _ hv, decide_eq_true (fun hc => ?_)⟩
    exact (of_decide_eq_true (List.mem_filter.mp hc).2) hs
  · rw [if_neg hnd]
    exact hv

/-- Witness for C7 (spec scenario 5): catalog and disk both hold exactly
`X/a.mp4`; the record's edited `title`/`tags` survive the sync verbatim. -/
theorem sync_frame_intersection_witness :
    vCustom ∈ ([vCustom] : Catalog) ∧
    vCustom.path ∈ scan_disk_paths (some tX) ∧
    vCustom.title = "My Custom Title" ∧
    vCustom.title ≠ (splitext (basename vCustom.path)).1 ∧
    vCustom ∈ (sync_database none (some tX) [vCustom]).1 :=
  ⟨by decide, by decide, rfl, by decide,
   sync_frame_intersection (some tX) [vCustom] vCustom (by decide) (by decide)⟩

/-- **C8** (confirmed): every path added by a successful sync is persisted as
a record whose `title` is the filename stem, whose `container_folder` is the
parent directory of the path, and whose `tags` are empty. -/
theorem sync_add_record_fields (media : Option FSTree) (db db' : Catalog)
    (r : SyncReport) (h : sync_database none media db = (db', .ok r))
    (p : String) (hp : p ∈ scan_disk_paths media)
    (hnew : p ∉ get_db_paths db) :
    ∃ v ∈ db', v.path = p ∧ v.title = (splitext (basename p)).1 ∧
      v.container_folder = dirname p ∧ v.tags = "" := by
  rw [sync_database_none_eq] at h
  by_cases hnd :
      ((staged_catalog (scan_disk_paths media) db).map Video.path).Nodup
  case neg =>
    rw [if_neg hnd] at h
    injection h with h₁ h₂
    exact Except.noConfusion h₂
  rw [if_pos hnd] at h
  injection h with h₁ h₂
  rw [← h₁]
  refine ⟨⟨(splitext (basename p)).1, p, dirname p, ""⟩,
    List.mem_filter.mpr ⟨List.mem_append_right _ ?_, ?_⟩, rfl, rfl, rfl, rfl⟩
  · exact List.mem_map.mpr
      ⟨p, List.mem_filter.mpr ⟨hp, decide_eq_true hnew⟩, rfl⟩
  · refine decide_eq_true (fun hc => ?_)
    exact hnew (List.mem_filter.mp hc).1

/-- Witness for C8: syncing `Tutorials/Go/video1.mp4` into an empty catalog
creates a record with title `video1`, container folder `Tutorials/Go`, and
empty tags. -/
theorem sync_add_record_fields_witness :
    sync_database none (some tGo) [] =
      ([{ title := "video1", path := "Tutorials/Go/video1.mp4",
          container_folder := "Tutorials/Go", tags := "" }], .ok ⟨1, 0, 1⟩) ∧
    (∃ v ∈ ([{ title := "video1", path := "Tutorials/Go/video1.mp4",
               container_folder := "Tutorials/Go", tags := "" }] : Catalog),
      v.path = "Tutorials/Go/video1.mp4" ∧
      v.title = (splitext (basename "Tutorials/Go/video1.mp4")).1 ∧
      v.container_folder = dirname "Tutorials/Go/video1.mp4" ∧ v.tags = "") :=
  ⟨by decide,
   sync_add_record_fields (some tGo) []
     [{ title := "video1", path := "Tutorials/Go/video1.mp4",
        container_folder := "Tutorials/Go", tags := "" }] ⟨1, 0, 1⟩
     (by decide) "Tutorials/Go/video1.mp4" (by decide) (by decide)⟩

/-! ### Infrastructure for the filter-correctness claim -/

/-- Splitting a character list at a separator absent from both heads is
unambiguous. -/
theorem append_sep_inj {c : Char} :
    ∀ {a a' b b' : List Char}, c ∉ a → c ∉ a' →
      a ++ c :: b = a' ++ c :: b' → a = a' ∧ b = b'
  | [], [], _, _, _, _, h => ⟨rfl, by simpa using h⟩
  | [], x' :: a', _, _, _, ha', h => by
    rw [List.nil_append, List.cons_append] at h
    injection h with h₁ h₂
    exact absurd (by rw [h₁]; exact List.mem_cons_self x' a') ha'
  | x :: a, [], _, _, ha, _, h => by
    rw [List.nil_append, List.cons_append] at h
    injection h with h₁ h₂
    exact absurd (by rw [h₁]; exact List.mem_cons_self c a) ha
  | x :: a, x' :: a', b, b', ha, ha', h => by
    simp only [List.cons_append, List.cons.injEq] at h
    obtain ⟨h₁, h₂⟩ := append_sep_inj (fun hc => ha (List.mem_cons_of_mem x hc))
      (fun hc => ha' (List.mem_cons_of_mem x' hc)) h.2
    exact ⟨by rw [h.1, h₁], h₂⟩

/-- A string whose data holds a character is not empty. -/
theorem ne_empty_of_mem_data {c : Char} {s : String} (h : c ∈ s.data) :
    s ≠ "" := by
  intro hc
  rw [hc] at h
  exact absurd h (List.not_mem_nil c)

/-- `joinRel` associates with concatenating a nonempty leading segment. -/
theorem joinRel_assoc (pre n s : String) (hn : n ≠ "") :
    joinRel (joinRel pre n) s = joinRel pre (n ++ "/" ++ s) := by
  by_cases hp : pre = ""
  · subst hp
    simp [joinRel, hn]
  · have hpn : pre ++ ("/" ++ n) ≠ "" :=
      ne_empty_of_mem_data (c := '/') (by simp [String.data_append])
    simp [joinRel, hp, hpn, String.append_assoc]

/-- The character data of `relOf` on a nonempty chain. -/
theorem relOf_cons_data (d : String) (ds : List String) (f : String) :
    (relOf (d :: ds) f).data = d.data ++ '/' :: (relOf ds f).data := by
  show ((d ++ "/") ++ relOf ds f).data = _
  rw [String.data_append, String.data_append]
  simp

/-- `goodName` unpacked. -/
theorem goodName_iff (s : String) :
    goodName s = true ↔ s ≠ "" ∧ '/' ∉ s.data := by
  unfold goodName
  simp

/-- Paths assembled from separator-free segments decompose uniquely. -/
theorem relOf_inj :
    ∀ {ds ds' : List String} {f f' : String},
      (∀ d ∈ ds, goodName d = true) → (∀ d ∈ ds', goodName d = true) →
      '/' ∉ f.data → '/' ∉ f'.data →
      relOf ds f = relOf ds' f' → ds = ds' ∧ f = f'
  | [], [], f, f', _, _, _, _, h => ⟨rfl, h⟩
  | [], d' :: ds', f, f', _, hg', hf, hf', h => by
    exfalso
    apply hf
    have hd : f.data = (relOf (d' :: ds') f').data := congrArg String.data h
    rw [relOf_cons_data] at hd
    rw [hd]
    simp
  | d :: ds, [], f, f', hg, _, hf, hf', h => by
    exfalso
    apply hf'
    have hd : (relOf (d :: ds) f).data = f'.data := congrArg String.data h
    rw [relOf_cons_data] at hd
    rw [← hd]
    simp
  | d :: ds, d' :: ds', f, f', hg, hg', hf, hf', h => by
    have hd : (relOf (d :: ds) f).data = (relOf (d' :: ds') f').data :=
      congrArg String.data h
    rw [relOf_cons_data, relOf_cons_data] at hd
    have hds : '/' ∉ d.data :=
      ((goodName_iff d).mp (hg d (List.mem_cons_self d ds))).2
    have hds' : '/' ∉ d'.data :=
      ((goodName_iff d').mp (hg' d' (List.mem_cons_self d' ds'))).2
    obtain ⟨h₁, h₂⟩ := append_sep_inj hds hds' hd
    obtain ⟨h₃, h₄⟩ := relOf_inj (fun x hx => hg x (List.mem_cons_of_mem d hx))
      (fun x hx => hg' x (List.mem_cons_of_mem d' hx)) hf hf' (String.ext h₂)
    exact ⟨by rw [String.ext h₁, h₃], h₄⟩

/-- Unpack `wfDirs` at a member subdirectory. -/
theorem wfDirs_mem :
    ∀ {dirs : List (String × FSTree)} {n : String} {sub : FSTree},
      wfDirs dirs = true → (n, sub) ∈ dirs →
      goodName n = true ∧ wfTree sub = true
  | [], _, _, _, h => absurd h (List.not_mem_nil _)
  | (m, s) :: rest, n, sub, hwf, h => by
    simp only [wfDirs, Bool.and_eq_true] at hwf
    rcases List.mem_cons.mp h with he | ht
    · injection he with e₁ e₂
      subst e₁
      subst e₂
      exact ⟨hwf.1.1, hwf.1.2⟩
    · exact wfDirs_mem hwf.2 ht

/-- In a well-formed tree, every directory name along a file position, and
the file name itself, are legal names. -/
theorem hasFileAt_good :
    ∀ (ds : List String) (t : FSTree) (f : String),
      wfTree t = true → hasFileAt t ds f = true →
      (∀ d ∈ ds, goodName d = true) ∧ goodName f = true
  | [], .node dirs files, f, hwf, hh => by
    refine ⟨fun d hd => absurd hd (List.not_mem_nil d), ?_⟩
    simp only [hasFileAt, FSTree.files] at hh
    simp only [wfTree, Bool.and_eq_true, List.all_eq_true] at hwf
    exact hwf.1 f (of_decide_eq_true hh)
  | d :: ds, .node dirs files, f, hwf, hh => by
    simp only [hasFileAt, FSTree.dirs, List.any_eq_true, Bool.and_eq_true,
      decide_eq_true_eq] at hh
    obtain ⟨⟨n, sub⟩, hmem, hnd, hrec⟩ := hh
    simp only [wfTree, Bool.and_eq_true] at hwf
    obtain ⟨hgn, hwsub⟩ := wfDirs_mem hwf.2 hmem
    obtain ⟨hds, hf⟩ := hasFileAt_good ds sub f hwsub hrec
    refine ⟨fun x hx => ?_, hf⟩
    rcases List.mem_cons.mp hx with he | ht
    · rw [he, ← hnd]
      exact hgn
    · exact hds x ht

/-- Soundness statement for `walkScan`: every produced path is the relative
path of an eligible file reached through unskipped directories. -/
def ScanSound (pre : String) (t : FSTree) : Prop :=
  wfTree t = true → ∀ p ∈ walkScan pre t,
    ∃ ds f, p = joinRel pre (relOf ds f) ∧ hasFileAt t ds f = true ∧
      (∀ d ∈ ds, d ∉ SKIP_FOLDERS) ∧ file_eligible f = true

/-- Soundness statement for `walkDirs`. -/
def DirsSound (pre : String) (dirs : List (String × FSTree)) : Prop :=
  wfDirs dirs = true → ∀ p ∈ walkDirs pre dirs,
    ∃ n sub ds f, (n, sub) ∈ dirs ∧ n ∉ SKIP_FOLDERS ∧
      (∀ d ∈ ds, d ∉ SKIP_FOLDERS) ∧ hasFileAt sub ds f = true ∧
      file_eligible f = true ∧ p = joinRel pre (relOf (n :: ds) f)

/-- Soundness of the pruned traversal, by mutual induction over the walk. -/
theorem walkScan_sound : ∀ (pre : String) (t : FSTree), ScanSound pre t := by
  refine walkScan.induct ScanSound DirsSound ?_ ?_ ?_
  · intro pre dirs files ih hwf p hp
    simp only [wfTree, Bool.and_eq_true] at hwf
    simp only [walkScan] at hp
    rcases List.mem_append.mp hp with hfp | hdp
    · obtain ⟨f, hf, hpe⟩ := List.mem_map.mp hfp
      obtain ⟨hfmem, helig⟩ := List.mem_filter.mp hf
      refine ⟨[], f, hpe.symm, ?_, fun d hd => absurd hd (List.not_mem_nil d),
        helig⟩
      simp only [hasFileAt, FSTree.files]
      exact decide_eq_true hfmem
    · obtain ⟨n, sub, ds, f, hmem, hnskip, hdskip, hhas, helig, hpe⟩ :=
        ih hwf.2 p hdp
      refine ⟨n :: ds, f, hpe, ?_, fun d hd => ?_, helig⟩
      · simp only [hasFileAt, FSTree.dirs, List.any_eq_true, Bool.and_eq_true,
          decide_eq_true_eq]
        exact ⟨(n, sub), hmem, rfl, hhas⟩
      · rcases List.mem_cons.mp hd with he | ht
        · rw [he]
          exact hnskip
        · exact hdskip d ht
  · intro pre hwf p hp
    exact absurd hp (List.not_mem_nil p)
  · intro pre n sub rest ih₁ ih₂ hwf p hp
    simp only [wfDirs, Bool.and_eq_true] at hwf
    obtain ⟨⟨hgn, hwsub⟩, hwrest⟩ := hwf
    simp only [walkDirs] at hp
    rcases List.mem_append.mp hp with hif | hrest
    · by_cases hskip : n ∈ SKIP_FOLDERS
      · rw [if_pos hskip] at hif
        exact absurd hif (List.not_mem_nil p)
      · rw [if_neg hskip] at hif
        obtain ⟨ds, f, hpe, hhas, hdskip, helig⟩ := ih₁ hwsub p hif
        refine ⟨n, sub, ds, f, List.mem_cons_self (n, sub) rest, hskip, hdskip, hhas,
          helig, ?_⟩
        rw [hpe, joinRel_assoc pre n _ ((goodName_iff n).mp hgn).1]
        rfl
    · obtain ⟨m, s, ds, f, hmem, hms, hdskip, hhas, helig, hpe⟩ :=
        ih₂ hwrest p hrest
      exact ⟨m, s, ds, f, List.mem_cons_of_mem _ hmem, hms, hdskip, hhas,
        helig, hpe⟩

/-- **C5** (confirmed): filter correctness of the scan.  For a well-formed
disk tree: a file under a skip-named directory, at any nesting depth, never
appears in `scan_disk_paths`; a file whose lower-cased extension is not in
`VIDEO_EXTENSIONS` is excluded; and a junk-named file (prefix `._` or exactly
`.DS_Store`) is excluded even when its extension is allow-listed. -/
theorem scan_filter_correct (t : FSTree) (ds : List String) (f : String)
    (hwf : wfTree t = true) (hfile : hasFileAt t ds f = true) :
    ((∃ d ∈ ds, d ∈ SKIP_FOLDERS) → relOf ds f ∉ scan_disk_paths (some t)) ∧
    (lowerStr (splitext f).2 ∉ VIDEO_EXTENSIONS →
      relOf ds f ∉ scan_disk_paths (some t)) ∧
    (is_junk_file f = true → relOf ds f ∉ scan_disk_paths (some t)) := by
  obtain ⟨hgds, hgf⟩ := hasFileAt_good ds t f hwf hfile
  have key : relOf ds f ∈ scan_disk_paths (some t) →
      (∀ d ∈ ds, d ∉ SKIP_FOLDERS) ∧ file_eligible f = true := by
    intro h
    have hmem : relOf ds f ∈ walkScan "" t := List.mem_dedup.mp h
    obtain ⟨ds', f', hpe, hhas', hskip', helig'⟩ := walkScan_sound "" t hwf _ hmem
    obtain ⟨hgds', hgf'⟩ := hasFileAt_good ds' t f' hwf hhas'
    have hj : relOf ds f = relOf ds' f' := by simpa [joinRel] using hpe
    obtain ⟨h₁, h₂⟩ := relOf_inj hgds hgds' ((goodName_iff f).mp hgf).2
      ((goodName_iff f').mp hgf').2 hj
    subst h₁
    subst h₂
    exact ⟨hskip', helig'⟩
  refine ⟨fun hex hmem => ?_, fun hext hmem => ?_, fun hjunk hmem => ?_⟩
  · obtain ⟨d, hd, hds⟩ := hex
    exact (key hmem).1 d hd hds
  · have helig := (key hmem).2
    simp only [file_eligible, Bool.and_eq_true, decide_eq_true_eq] at helig
    exact hext helig.2
  · have helig := (key hmem).2
    simp only [file_eligible, Bool.and_eq_true, Bool.not_eq_true'] at helig
    rw [hjunk] at helig
    exact Bool.noConfusion helig.1

/-- Disk tree for the C5 witness: spec scenarios 3 and 4 plus a plain
non-video file. -/
def tDemo : FSTree :=
  .node [("@eaDir", .node [] ["hidden.mp4"]),
         ("Movies", .node [] ["ok.mp4", "._macjunk.mp4", "readme.txt"])] []

/-- Witness for C5: on `tDemo`, only `Movies/ok.mp4` is scanned: the eligible
file under `@eaDir` is pruned, the `.txt` file fails the extension
allow-list, and the `._`-named file is excluded despite its `.mp4`
extension. -/
theorem scan_filter_correct_witness :
    wfTree tDemo = true ∧
    scan_disk_paths (some tDemo) = ["Movies/ok.mp4"] ∧
    relOf ["@eaDir"] "hidden.mp4" ∉ scan_disk_paths (some tDemo) ∧
    relOf ["Movies"] "readme.txt" ∉ scan_disk_paths (some tDemo) ∧
    relOf ["Movies"] "._macjunk.mp4" ∉ scan_disk_paths (some tDemo) :=
  ⟨by decide, by decide,
   (scan_filter_correct tDemo ["@eaDir"] "hidden.mp4" (by decide)
      (by decide)).1 ⟨"@eaDir", by decide, by decide⟩,
   (scan_filter_correct tDemo ["Movies"] "readme.txt" (by decide)
      (by decide)).2.1 (by decide),
   (scan_filter_correct tDemo ["Movies"] "._macjunk.mp4" (by decide)
      (by decide)).2.2 (by decide)⟩

end VideoManager
